import Mathlib

/-!
Shallow embedding of the data-generation and aggregation core of the Joiners
marketing-attribution dashboard (source: `src/app/page.tsx`; the unnamed
variant files share the same generator and aggregation code, and
`src/unnamed/part_000` additionally defines `chartMax`).

Modelling conventions:

* Calendar dates are represented by their day number (days since 1970-01-01,
  the JS epoch).  The source keys rows by the ISO date string
  `toISOString().split('T')[0]`, which is in bijection with the day number;
  equality and chronological order of date strings coincide with equality and
  order of day numbers.  `displayDate` (a formatted label derived from the
  same calendar day) is likewise represented by the day number.
* JS `Map` and plain-object accumulators are modelled as association lists in
  insertion order, which is exactly the iteration order JS guarantees for
  `Map` and for string-keyed objects.
* `Array.prototype.sort` (stable per ES2019) is modelled by `List.mergeSort`,
  whose stability is proved in the Lean core library.
* Numeric values are modelled with `ℤ` and `ℚ` (with `Int.floor` for
  `Math.floor`); all quantities in the source are small enough that this is
  the intended exact semantics of the arithmetic.
* `Math.random()` draws are threaded through the generator as an explicit
  entropy source.
-/

namespace Joiners

/-! ## Calendar arithmetic (JS `Date` semantics) -/

/-- Day of week of a day number, as JS `Date.getDay()`: 0 = Sunday, …,
6 = Saturday.  Day 0 (1970-01-01) was a Thursday (= 4). -/
def dow (n : ℤ) : ℤ := (n + 4) % 7

/-- Source: `currentDate.getDay() === 0 || currentDate.getDay() === 6`. -/
def isWeekend (n : ℤ) : Bool := dow n == 0 || dow n == 6

/-- Civil (Gregorian) date of a day number, as (year, month 1–12, day 1–31);
the standard days-to-civil conversion.  Used only on the (non-negative) day
numbers of the generated window. -/
def civilFromDays (z : ℤ) : ℤ × ℤ × ℤ :=
  let z' := z + 719468
  let era : ℤ := z' / 146097
  let doe : ℤ := z' - era * 146097
  let yoe : ℤ := (doe - doe / 1460 + doe / 36524 - doe / 146096) / 365
  let y : ℤ := yoe + era * 400
  let doy : ℤ := doe - (365 * yoe + yoe / 4 - yoe / 100)
  let mp : ℤ := (5 * doy + 2) / 153
  let d : ℤ := doy - (153 * mp + 2) / 5 + 1
  let m : ℤ := if mp < 10 then mp + 3 else mp - 9
  (if m ≤ 2 then y + 1 else y, m, d)

/-- JS `Date.getMonth()`: 0-based month of a day number. -/
def monthOf (n : ℤ) : ℤ := (civilFromDays n).2.1 - 1

/-- Day number of the generator's anchor date 2024-10-25
(`new Date('2024-10-25T12:00:00')`). -/
def anchorDay : ℤ := 20021

/-- Sanity check for the anchor day number: it denotes 2024-10-25. -/
theorem anchorDay_civil : civilFromDays anchorDay = (2024, 10, 25) := by decide

/-- Sanity check: the anchor date is a Friday (`getDay() = 5`). -/
theorem anchorDay_dow : dow anchorDay = 5 := by decide

/-! ## Segment domains and seasonality table -/

namespace SEGMENTS

def regions : List String := ["US", "UK", "Ireland"]

def personas : List String := ["Talent Acquisition", "HR Director", "Employer Branding"]

def inboxes : List String := ["Google Workspace", "Outlook 365", "Azure", "SMTP"]

def campaigns : List String := ["Campaign A", "Campaign B", "Campaign C", "Campaign D"]

def ttlBuckets : List String := ["< 5 mins", "5-30 mins", "30-60 mins", "1-4 hours", "> 24 hours"]

def revenueRanges : List String := ["< $1M", "$1M - $10M", "$10M - $50M", "$50M+"]

end SEGMENTS

/-- Month-indexed seasonality multipliers (index 0 = January). -/
def SEASONALITY : List ℚ := [1.2, 1.2, 1.1, 1.0, 0.9, 0.2, 0.2, 1.1, 1.3, 1.4, 1.4, 1.0]

/-- Source: `SEASONALITY[month] || 1.0` — defaults to 1.0 off the table (no
table entry is 0, so `||` never replaces a present entry). -/
def seasonFactor (month : ℤ) : ℚ := SEASONALITY.getD month.toNat 1

/-! ## Record data model -/

/-- One generated record (`RowData` in the source). -/
structure RowData where
  date : ℤ
  displayDate : ℤ
  region : String
  persona : String
  inbox_provider : String
  campaign_name : String
  ttl_bucket : String
  revenue_range : String
  emails_sent : ℤ
  replies : ℤ
  positive_replies : ℤ
  meetings_booked : ℤ
  bounces : ℤ
  estimated_pipeline_value : ℤ
  planned_sent : ℤ
  planned_replies : ℤ
  planned_mqls : ℤ
  planned_sqls : ℤ
  planned_bounces : ℤ
deriving DecidableEq

/-! ## Synthetic data generator (`generateRawCSVData`) -/

/-- One record's worth of `Math.random()` draws, in source order: six
categorical index draws (`Math.floor(Math.random() * len)`) and the raw draws
feeding the volume noise and the reply rate. -/
structure GenSample where
  regionIx : ℕ
  personaIx : ℕ
  inboxIx : ℕ
  campaignIx : ℕ
  revenueIx : ℕ
  ttlIx : ℕ
  noiseR : ℚ
  replyR : ℚ
deriving DecidableEq

/-- The draws lie in their stated ranges: raw draws in `[0, 1)` and each
categorical index below its domain size. -/
def GenSample.InRange (s : GenSample) : Prop :=
  0 ≤ s.noiseR ∧ s.noiseR < 1 ∧ 0 ≤ s.replyR ∧ s.replyR < 1 ∧
    s.regionIx < 3 ∧ s.personaIx < 3 ∧ s.inboxIx < 4 ∧ s.campaignIx < 4 ∧
    s.revenueIx < 4 ∧ s.ttlIx < 5

instance (s : GenSample) : Decidable s.InRange := by
  unfold GenSample.InRange; infer_instance

/-- `Math.floor(baseVol * seasonFactor * noise)` with `baseVol = 250` and
`noise = 0.85 + Math.random() * 0.3`, for day offset `i` before the anchor. -/
def rowEmailsSent (i : ℕ) (s : GenSample) : ℤ :=
  ⌊(250 : ℚ) * seasonFactor (monthOf (anchorDay - i)) * (0.85 + s.noiseR * 0.3)⌋

/-- `Math.floor(baseVol * seasonFactor)`. -/
def rowPlannedSent (i : ℕ) : ℤ :=
  ⌊(250 : ℚ) * seasonFactor (monthOf (anchorDay - i))⌋

/-- `Math.floor(emailsSent * replyRate)` with
`replyRate = 0.018 + Math.random() * 0.007`. -/
def rowReplies (i : ℕ) (s : GenSample) : ℤ :=
  ⌊(rowEmailsSent i s : ℚ) * (0.018 + s.replyR * 0.007)⌋

/-- `Math.floor(plannedSent * 0.02)`. -/
def rowPlannedReplies (i : ℕ) : ℤ := ⌊(rowPlannedSent i : ℚ) * 0.02⌋

/-- `Math.floor(replies * 0.35)`. -/
def rowPositiveReplies (i : ℕ) (s : GenSample) : ℤ :=
  ⌊(rowReplies i s : ℚ) * 0.35⌋

/-- `Math.floor(plannedReplies * 0.35)`. -/
def rowPlannedMQLs (i : ℕ) : ℤ := ⌊(rowPlannedReplies i : ℚ) * 0.35⌋

/-- `Math.floor(positiveReplies * 0.6)`. -/
def rowMeetingsBooked (i : ℕ) (s : GenSample) : ℤ :=
  ⌊(rowPositiveReplies i s : ℚ) * 0.6⌋

/-- `Math.floor(plannedMQLs * 0.6)`. -/
def rowPlannedSQLs (i : ℕ) : ℤ := ⌊(rowPlannedMQLs i : ℚ) * 0.6⌋

/-- `Math.floor(emailsSent * bounceRate)` with
`bounceRate = inbox === "SMTP" ? 0.03 : 0.012`. -/
def rowBounces (i : ℕ) (s : GenSample) : ℤ :=
  ⌊(rowEmailsSent i s : ℚ) *
    (if SEGMENTS.inboxes.getD s.inboxIx "" == "SMTP" then 0.03 else 0.012)⌋

/-- `Math.floor(plannedSent * 0.015)`. -/
def rowPlannedBounces (i : ℕ) : ℤ := ⌊(rowPlannedSent i : ℚ) * 0.015⌋

/-- Body of the generator's inner loop (one record for day offset `i` before
the anchor), per `generateRawCSVData` lines 90–141 of `src/app/page.tsx`. -/
def genRow (i : ℕ) (s : GenSample) : RowData :=
  let revenue := SEGMENTS.revenueRanges.getD s.revenueIx ""
  { date := anchorDay - i
    displayDate := anchorDay - i
    region := SEGMENTS.regions.getD s.regionIx ""
    persona := SEGMENTS.personas.getD s.personaIx ""
    inbox_provider := SEGMENTS.inboxes.getD s.inboxIx ""
    campaign_name := SEGMENTS.campaigns.getD s.campaignIx ""
    ttl_bucket := SEGMENTS.ttlBuckets.getD s.ttlIx ""
    revenue_range := revenue
    emails_sent := rowEmailsSent i s
    replies := rowReplies i s
    positive_replies := rowPositiveReplies i s
    meetings_booked := rowMeetingsBooked i s
    bounces := rowBounces i s
    estimated_pipeline_value :=
      rowMeetingsBooked i s * (if revenue == "$50M+" then 50000 else 15000)
    planned_sent := rowPlannedSent i
    planned_replies := rowPlannedReplies i
    planned_mqls := rowPlannedMQLs i
    planned_sqls := rowPlannedSQLs i
    planned_bounces := rowPlannedBounces i }

/-- Source: `const numSegments = isWeekend ? 2 : 12`. -/
def numSegments (i : ℕ) : ℕ := if isWeekend (anchorDay - i) then 2 else 12

/-- The records generated for day offset `i` (the inner `for j` loop). -/
def dayRows (i : ℕ) (e : ℕ → GenSample) : List RowData :=
  (List.range (numSegments i)).map fun j => genRow i (e j)

/-- The generator: day offsets run from 120 down to 0 relative to the anchor
(121 days); each day contributes `numSegments` records.  `e i j` is the row of
random draws consumed by segment row `j` of day offset `i`. -/
def generateRawCSVData (e : ℕ → ℕ → GenSample) : List RowData :=
  ((List.range 121).map fun k => 120 - k).flatMap fun i => dayRows i (e i)

/-! ## Metric and category field names -/

/-- The ten actual/planned metric fields summed by the aggregation engine. -/
inductive MetricField where
  | emails_sent
  | planned_sent
  | replies
  | planned_replies
  | positive_replies
  | planned_mqls
  | meetings_booked
  | planned_sqls
  | bounces
  | planned_bounces
deriving DecidableEq

/-- Dynamic metric access `row[key]` for the ten numeric funnel fields. -/
def RowData.get (r : RowData) : MetricField → ℤ
  | .emails_sent => r.emails_sent
  | .planned_sent => r.planned_sent
  | .replies => r.replies
  | .planned_replies => r.planned_replies
  | .positive_replies => r.positive_replies
  | .planned_mqls => r.planned_mqls
  | .meetings_booked => r.meetings_booked
  | .planned_sqls => r.planned_sqls
  | .bounces => r.bounces
  | .planned_bounces => r.planned_bounces

/-- The categorical grouping fields of a record (the source passes field
names as strings; these six names denote the categorical columns). -/
inductive CatField where
  | region
  | persona
  | inbox_provider
  | campaign_name
  | ttl_bucket
  | revenue_range
deriving DecidableEq

/-- Dynamic categorical access `row[field]`. -/
def RowData.getCat (r : RowData) : CatField → String
  | .region => r.region
  | .persona => r.persona
  | .inbox_provider => r.inbox_provider
  | .campaign_name => r.campaign_name
  | .ttl_bucket => r.ttl_bucket
  | .revenue_range => r.revenue_range

/-- Sum of one metric over a record list (the reference value the aggregation
operations are compared against). -/
def metricSum (rows : List RowData) (m : MetricField) : ℤ :=
  (rows.map fun r => r.get m).sum

/-! ## By-day aggregation (`chartData`) -/

/-- One aggregated per-day entry (`AggregatedDay` in the source). -/
structure AggregatedDay where
  date : ℤ
  displayDate : ℤ
  emails_sent : ℤ
  planned_sent : ℤ
  replies : ℤ
  planned_replies : ℤ
  positive_replies : ℤ
  planned_mqls : ℤ
  meetings_booked : ℤ
  planned_sqls : ℤ
  bounces : ℤ
  planned_bounces : ℤ
deriving DecidableEq

/-- Dynamic metric access on an aggregated day. -/
def AggregatedDay.get (d : AggregatedDay) : MetricField → ℤ
  | .emails_sent => d.emails_sent
  | .planned_sent => d.planned_sent
  | .replies => d.replies
  | .planned_replies => d.planned_replies
  | .positive_replies => d.positive_replies
  | .planned_mqls => d.planned_mqls
  | .meetings_booked => d.meetings_booked
  | .planned_sqls => d.planned_sqls
  | .bounces => d.bounces
  | .planned_bounces => d.planned_bounces

/-- The zero entry installed when a date is first seen by the `chartData`
fold. -/
def AggregatedDay.mkZero (r : RowData) : AggregatedDay :=
  { date := r.date
    displayDate := r.displayDate
    emails_sent := 0
    planned_sent := 0
    replies := 0
    planned_replies := 0
    positive_replies := 0
    planned_mqls := 0
    meetings_booked := 0
    planned_sqls := 0
    bounces := 0
    planned_bounces := 0 }

/-- The ten `day.f += row.f` updates of the `chartData` fold. -/
def AggregatedDay.add (d : AggregatedDay) (r : RowData) : AggregatedDay :=
  { d with
    emails_sent := d.emails_sent + r.emails_sent
    planned_sent := d.planned_sent + r.planned_sent
    replies := d.replies + r.replies
    planned_replies := d.planned_replies + r.planned_replies
    positive_replies := d.positive_replies + r.positive_replies
    planned_mqls := d.planned_mqls + r.planned_mqls
    meetings_booked := d.meetings_booked + r.meetings_booked
    planned_sqls := d.planned_sqls + r.planned_sqls
    bounces := d.bounces + r.bounces
    planned_bounces := d.planned_bounces + r.planned_bounces }

/-- One step of the `chartData` fold over the JS `Map` (an association list in
insertion order): add the row to the first entry carrying its date, or append
a fresh zero entry and add to it when the date is new. -/
def insertRow (r : RowData) : List AggregatedDay → List AggregatedDay
  | [] => [AggregatedDay.add (AggregatedDay.mkZero r) r]
  | d :: ds =>
    if d.date = r.date then AggregatedDay.add d r :: ds else d :: insertRow r ds

/-- The grouping pass of `chartData`: `Array.from(dateMap.values())` after
folding all rows into the date-keyed map. -/
def groupByDate (rows : List RowData) : List AggregatedDay :=
  rows.foldl (fun m r => insertRow r m) []

/-- Comparator of the final `chartData` sort,
`(a, b) => new Date(a.date).getTime() - new Date(b.date).getTime()`:
`a` may stay before `b` exactly when `a.date ≤ b.date`. -/
def dateLe (a b : AggregatedDay) : Bool := decide (a.date ≤ b.date)

/-- Source `chartData`: group by date, then sort ascending by date.  (The
early return `if (!rawData.length) return []` agrees with the general path on
the empty list.) -/
def chartData (rows : List RowData) : List AggregatedDay :=
  (groupByDate rows).mergeSort dateLe

/-! ## Grand totals (`totals`) -/

/-- Accumulator of the `totals` reduce. -/
structure Totals where
  emails_sent : ℤ
  planned_sent : ℤ
  replies : ℤ
  planned_replies : ℤ
  positive_replies : ℤ
  planned_mqls : ℤ
  meetings_booked : ℤ
  planned_sqls : ℤ
  bounces : ℤ
  planned_bounces : ℤ
deriving DecidableEq

/-- Dynamic metric access on the totals record. -/
def Totals.get (t : Totals) : MetricField → ℤ
  | .emails_sent => t.emails_sent
  | .planned_sent => t.planned_sent
  | .replies => t.replies
  | .planned_replies => t.planned_replies
  | .positive_replies => t.positive_replies
  | .planned_mqls => t.planned_mqls
  | .meetings_booked => t.meetings_booked
  | .planned_sqls => t.planned_sqls
  | .bounces => t.bounces
  | .planned_bounces => t.planned_bounces

/-- One step of the `totals` reduce: `{ f: (acc.f || 0) + row.f, … }`. -/
def Totals.add (acc : Totals) (r : RowData) : Totals :=
  { emails_sent := acc.emails_sent + r.emails_sent
    planned_sent := acc.planned_sent + r.planned_sent
    replies := acc.replies + r.replies
    planned_replies := acc.planned_replies + r.planned_replies
    positive_replies := acc.positive_replies + r.positive_replies
    planned_mqls := acc.planned_mqls + r.planned_mqls
    meetings_booked := acc.meetings_booked + r.meetings_booked
    planned_sqls := acc.planned_sqls + r.planned_sqls
    bounces := acc.bounces + r.bounces
    planned_bounces := acc.planned_bounces + r.planned_bounces }

/-- Source `totals`: one reduce over the whole record list.  The source
starts from the empty object and reads `(acc.f || 0)`; absent fields read 0,
so the fold is started from the all-zero record. -/
def totals (rows : List RowData) : Totals :=
  rows.foldl Totals.add ⟨0, 0, 0, 0, 0, 0, 0, 0, 0, 0⟩

/-! ## Segment breakdowns (`getGroupedData`) -/

/-- Object update `groups[key] = (groups[key] || 0) + value` on a
string-keyed object in insertion order: add to the first entry with the key,
or append a new entry at the end. -/
def bump (k : String) (v : ℤ) : List (String × ℤ) → List (String × ℤ)
  | [] => [(k, v)]
  | p :: ps => if p.1 = k then (p.1, p.2 + v) :: ps else p :: bump k v ps

/-- Reference definition for stating order properties: the distinct values
of a list, in first-occurrence order (the key-insertion order of a JS object
or `Map` built by one pass over the list). -/
def firstSeen {α : Type} [DecidableEq α] (l : List α) : List α :=
  l.foldl (fun acc a => if a ∈ acc then acc else acc ++ [a]) []

/-- Result of `getGroupedData`: `(category, sum)` pairs plus the grand total
of the selected metric. -/
structure Breakdown where
  data : List (String × ℤ)
  total : ℤ
deriving DecidableEq

/-- Comparator `(a, b) => b.value - a.value` of the breakdown sort: `a` may
stay before `b` exactly when `b.value ≤ a.value`; JS sort is stable. -/
def valueLe (a b : String × ℤ) : Bool := decide (b.2 ≤ a.2)

/-- One step of the `getGroupedData` fold:
`groups[key] = (groups[key] || 0) + value; total += value`. -/
def groupedStep (fld : CatField) (m : MetricField)
    (acc : List (String × ℤ) × ℤ) (r : RowData) : List (String × ℤ) × ℤ :=
  (bump (r.getCat fld) (r.get m) acc.1, acc.2 + r.get m)

/-- The single pass of `getGroupedData`: per-category sums (object
semantics) and the running grand total, accumulated together. -/
def groupedPass (rows : List RowData) (fld : CatField) (m : MetricField) :
    List (String × ℤ) × ℤ :=
  rows.foldl (groupedStep fld m) ([], 0)

/-- Source `getGroupedData field` with the active metric made explicit. -/
def getGroupedData (rows : List RowData) (fld : CatField) (m : MetricField) :
    Breakdown :=
  { data := (groupedPass rows fld m).1.mergeSort valueLe
    total := (groupedPass rows fld m).2 }

/-! ## Speed-to-lead series (`ttlConfig`) -/

/-- Initial `counts` object of `ttlConfig`: every response-time bucket
pre-seeded with 0, in domain order. -/
def ttlInit : List (String × ℤ) := SEGMENTS.ttlBuckets.map fun b => (b, 0)

/-- One step of the `ttlConfig` fold:
`if (val > 0) counts[row.ttl_bucket] = (counts[row.ttl_bucket] || 0) + val`. -/
def ttlStep (m : MetricField) (acc : List (String × ℤ)) (r : RowData) :
    List (String × ℤ) :=
  if 0 < r.get m then bump r.ttl_bucket (r.get m) acc else acc

/-- The data series of `ttlConfig`: fold the records over the pre-seeded
bucket counts, skipping rows whose metric value is not strictly positive. -/
def ttlData (rows : List RowData) (m : MetricField) : List (String × ℤ) :=
  rows.foldl (ttlStep m) ttlInit

/-! ## Chart configuration and value ceiling -/

/-- Field names as the strings used for dynamic access in the source. -/
def MetricField.key : MetricField → String
  | .emails_sent => "emails_sent"
  | .planned_sent => "planned_sent"
  | .replies => "replies"
  | .planned_replies => "planned_replies"
  | .positive_replies => "positive_replies"
  | .planned_mqls => "planned_mqls"
  | .meetings_booked => "meetings_booked"
  | .planned_sqls => "planned_sqls"
  | .bounces => "bounces"
  | .planned_bounces => "planned_bounces"

/-- Dynamic read `d[key] || 0` on an aggregated day; unknown keys read 0. -/
def AggregatedDay.getStr (d : AggregatedDay) : String → ℤ
  | "emails_sent" => d.emails_sent
  | "planned_sent" => d.planned_sent
  | "replies" => d.replies
  | "planned_replies" => d.planned_replies
  | "positive_replies" => d.positive_replies
  | "planned_mqls" => d.planned_mqls
  | "meetings_booked" => d.meetings_booked
  | "planned_sqls" => d.planned_sqls
  | "bounces" => d.bounces
  | "planned_bounces" => d.planned_bounces
  | _ => 0

/-- The actual/planned series pair selected for the comparison chart. -/
structure ChartConfig where
  actual : String
  planned : String
  label : String
deriving DecidableEq

/-- Source `getChartConfig` (the color field is omitted as pure
presentation). -/
def getChartConfig : String → ChartConfig
  | "emails_sent" => ⟨"emails_sent", "planned_sent", "Emails Sent"⟩
  | "replies" => ⟨"replies", "planned_replies", "Replies"⟩
  | "positive_replies" => ⟨"positive_replies", "planned_mqls", "MQLs (Positive)"⟩
  | "meetings_booked" => ⟨"meetings_booked", "planned_sqls", "SQLs (Meetings)"⟩
  | "bounces" => ⟨"bounces", "planned_bounces", "Bounces"⟩
  | _ => ⟨"emails_sent", "planned_sent", "Emails Sent"⟩

/-- The first component of the underscore-split of a metric name: the prefix
of the name before its first underscore (JS `name.split(sep)[0]`, whole name
when the separator does not occur). -/
def splitFirst (s : String) : String :=
  String.mk (s.data.takeWhile fun c => c != '_')

/-- The planned-series key computed inline by `chartMax`
(`src/unnamed/part_000`, line 439): prefix `planned_` followed by `mqls` when
the metric name splits on underscore into a first component equal to
`positive`, by `sqls` when the metric equals `meetings_booked`, and by `sent`
in every other case. -/
def chartMaxPlannedKey (activeMetric : String) : String :=
  "planned_" ++
    (if splitFirst activeMetric = "positive" then "mqls"
     else if activeMetric = "meetings_booked" then "sqls" else "sent")

/-- Source `chartMax` (`src/unnamed/part_000`, lines 437–442): 0 when the
day-series is empty, else `Math.max` over the aggregated window of the
pointwise max of the active series and the inline-keyed planned series,
scaled by 1.1. -/
def chartMax (rows : List RowData) (activeMetric : String) : ℚ :=
  match (chartData rows).map
      (fun d => max (d.getStr activeMetric) (d.getStr (chartMaxPlannedKey activeMetric))) with
  | [] => 0
  | x :: xs => ((xs.foldl max x : ℤ) : ℚ) * 1.1

/-- Modelled from the spec (section 4.2): the value ceiling as the spec
describes it, taking the planned series from the same fixed pairing that
`getChartConfig` uses to select the plotted series. -/
def chartMaxSpec (rows : List RowData) (activeMetric : String) : ℚ :=
  match (chartData rows).map
      (fun d =>
        max (d.getStr (getChartConfig activeMetric).actual)
          (d.getStr (getChartConfig activeMetric).planned)) with
  | [] => 0
  | x :: xs => ((xs.foldl max x : ℤ) : ℚ) * 1.1

/-- Modelled from the spec (section 4.2): the fixed actual-to-planned metric
pairing the spec says is used both for the plotted series and for the value
ceiling. -/
def pairedPlanned : String → String
  | "emails_sent" => "planned_sent"
  | "replies" => "planned_replies"
  | "positive_replies" => "planned_mqls"
  | "meetings_booked" => "planned_sqls"
  | "bounces" => "planned_bounces"
  | _ => ""

/-- Reference value: the maximum of one key's series over the aggregated
window (0 on an empty window, matching what `chartMax` reports there). -/
def seriesMax (l : List AggregatedDay) (k : String) : ℤ :=
  ((l.map fun d => d.getStr k).max?).getD 0

/-! ## Percentage shares (`DrillDownTable`) -/

/-- The percentage share rendered for one breakdown entry:
`total > 0 ? (value / total) * 100 : 0`. -/
def pctShare (v total : ℤ) : ℚ := if 0 < total then ((v : ℚ) / total) * 100 else 0

/-- The shares rendered for a whole breakdown table. -/
def renderedShares (data : List (String × ℤ)) (total : ℤ) : List ℚ :=
  data.map fun e => pctShare e.2 total

/-! ## Helper lemmas: floors of rate applications -/

theorem getD_nonneg :
    ∀ (l : List ℚ) (n : ℕ) (d : ℚ), (∀ x ∈ l, 0 ≤ x) → 0 ≤ d → 0 ≤ l.getD n d
  | [], _, _, _, hd => hd
  | x :: _, 0, _, hl, _ => hl x (List.mem_cons_self _ _)
  | _ :: xs, n + 1, d, hl, hd =>
    getD_nonneg xs n d (fun y hy => hl y (List.mem_cons_of_mem _ hy)) hd

theorem seasonFactor_nonneg (month : ℤ) : 0 ≤ seasonFactor month :=
  getD_nonneg _ _ _ (by intro x hx; fin_cases hx <;> norm_num) (by norm_num)

/-- Applying a nonnegative rate to a nonnegative integer and flooring stays
nonnegative. -/
theorem floor_rate_nonneg {e : ℤ} {r : ℚ} (he : 0 ≤ e) (hr : 0 ≤ r) :
    0 ≤ ⌊(e : ℚ) * r⌋ :=
  Int.le_floor.mpr (by push_cast; exact mul_nonneg (by exact_mod_cast he) hr)

/-- Applying a rate at most 1 to a nonnegative integer and flooring does not
exceed the integer. -/
theorem floor_rate_le {e : ℤ} {r : ℚ} (he : 0 ≤ e) (hr : r ≤ 1) :
    ⌊(e : ℚ) * r⌋ ≤ e := by
  have h : (e : ℚ) * r ≤ (e : ℚ) := by
    calc (e : ℚ) * r ≤ (e : ℚ) * 1 :=
          mul_le_mul_of_nonneg_left hr (by exact_mod_cast he)
      _ = (e : ℚ) := mul_one _
  calc ⌊(e : ℚ) * r⌋ ≤ ⌊(e : ℚ)⌋ := Int.floor_le_floor h
    _ = e := Int.floor_intCast e

theorem rowEmailsSent_nonneg (i : ℕ) (s : GenSample) (h : 0 ≤ s.noiseR) :
    0 ≤ rowEmailsSent i s := by
  have hsf := seasonFactor_nonneg (monthOf (anchorDay - i))
  exact Int.le_floor.mpr (by
    push_cast
    have : (0 : ℚ) ≤ 0.85 + s.noiseR * 0.3 := by positivity
    positivity)

theorem rowPlannedSent_nonneg (i : ℕ) : 0 ≤ rowPlannedSent i := by
  have hsf := seasonFactor_nonneg (monthOf (anchorDay - i))
  exact Int.le_floor.mpr (by push_cast; positivity)

/-! ## C1: funnel chains of generated records -/

/-- C1.  Every record produced by `generateRawCSVData`, for draws within
their stated ranges, satisfies the actual funnel chain
`0 ≤ bounces ≤ emails_sent`, `0 ≤ meetings_booked ≤ positive_replies ≤
replies ≤ emails_sent`, and the planned funnel chain
`0 ≤ planned_sqls ≤ planned_mqls ≤ planned_replies ≤ planned_sent`. -/
theorem claim1_generator_funnel_chains (e : ℕ → ℕ → GenSample)
    (he : ∀ i j, (e i j).InRange) (r : RowData)
    (hr : r ∈ generateRawCSVData e) :
    (0 ≤ r.bounces ∧ r.bounces ≤ r.emails_sent) ∧
      (0 ≤ r.meetings_booked ∧ r.meetings_booked ≤ r.positive_replies ∧
        r.positive_replies ≤ r.replies ∧ r.replies ≤ r.emails_sent) ∧
      (0 ≤ r.planned_sqls ∧ r.planned_sqls ≤ r.planned_mqls ∧
        r.planned_mqls ≤ r.planned_replies ∧
        r.planned_replies ≤ r.planned_sent) := by
  simp only [generateRawCSVData, List.mem_flatMap, List.mem_map,
    List.mem_range, dayRows] at hr
  obtain ⟨i, -, j, -, rfl⟩ := hr
  obtain ⟨hn0, -, hr0, hr1, -⟩ := he i j
  set s := e i j with hs
  have hes : 0 ≤ rowEmailsSent i s := rowEmailsSent_nonneg i s hn0
  have hrep0 : 0 ≤ rowReplies i s :=
    floor_rate_nonneg hes (by positivity)
  have hrep1 : rowReplies i s ≤ rowEmailsSent i s :=
    floor_rate_le hes (by nlinarith)
  have hpos0 : 0 ≤ rowPositiveReplies i s :=
    floor_rate_nonneg hrep0 (by norm_num)
  have hpos1 : rowPositiveReplies i s ≤ rowReplies i s :=
    floor_rate_le hrep0 (by norm_num)
  have hmb0 : 0 ≤ rowMeetingsBooked i s :=
    floor_rate_nonneg hpos0 (by norm_num)
  have hmb1 : rowMeetingsBooked i s ≤ rowPositiveReplies i s :=
    floor_rate_le hpos0 (by norm_num)
  have hb0 : 0 ≤ rowBounces i s :=
    floor_rate_nonneg hes (by split <;> norm_num)
  have hb1 : rowBounces i s ≤ rowEmailsSent i s :=
    floor_rate_le hes (by split <;> norm_num)
  have hps : 0 ≤ rowPlannedSent i := rowPlannedSent_nonneg i
  have hpr0 : 0 ≤ rowPlannedReplies i := floor_rate_nonneg hps (by norm_num)
  have hpr1 : rowPlannedReplies i ≤ rowPlannedSent i :=
    floor_rate_le hps (by norm_num)
  have hpm0 : 0 ≤ rowPlannedMQLs i := floor_rate_nonneg hpr0 (by norm_num)
  have hpm1 : rowPlannedMQLs i ≤ rowPlannedReplies i :=
    floor_rate_le hpr0 (by norm_num)
  have hpq0 : 0 ≤ rowPlannedSQLs i := floor_rate_nonneg hpm0 (by norm_num)
  have hpq1 : rowPlannedSQLs i ≤ rowPlannedMQLs i :=
    floor_rate_le hpm0 (by norm_num)
  exact ⟨⟨hb0, hb1⟩, ⟨hmb0, hmb1, hpos1, hrep1⟩, ⟨hpq0, hpq1, hpm1, hpr1⟩⟩

/-- An entropy source whose every draw is 0 (the minimum of each range). -/
def entropyZero : ℕ → ℕ → GenSample := fun _ _ => ⟨0, 0, 0, 0, 0, 0, 0, 0⟩

/-- Day offset 120 of the window contributes at least one record. -/
theorem genRow_mem_generate (e : ℕ → ℕ → GenSample) :
    genRow 120 (e 120 0) ∈ generateRawCSVData e := by
  simp only [generateRawCSVData, List.mem_flatMap, List.mem_map, dayRows,
    List.mem_range]
  exact ⟨120, ⟨0, by decide, by decide⟩, 0, by decide, rfl⟩

/-- Witness for C1 at the all-zero entropy source and the anchor-window's
first record. -/
theorem claim1_witness :
    (∀ i j, (entropyZero i j).InRange) ∧
      ((0 ≤ (genRow 120 (entropyZero 120 0)).bounces ∧
          (genRow 120 (entropyZero 120 0)).bounces ≤
            (genRow 120 (entropyZero 120 0)).emails_sent) ∧
        (0 ≤ (genRow 120 (entropyZero 120 0)).meetings_booked ∧
          (genRow 120 (entropyZero 120 0)).meetings_booked ≤
            (genRow 120 (entropyZero 120 0)).positive_replies ∧
          (genRow 120 (entropyZero 120 0)).positive_replies ≤
            (genRow 120 (entropyZero 120 0)).replies ∧
          (genRow 120 (entropyZero 120 0)).replies ≤
            (genRow 120 (entropyZero 120 0)).emails_sent) ∧
        (0 ≤ (genRow 120 (entropyZero 120 0)).planned_sqls ∧
          (genRow 120 (entropyZero 120 0)).planned_sqls ≤
            (genRow 120 (entropyZero 120 0)).planned_mqls ∧
          (genRow 120 (entropyZero 120 0)).planned_mqls ≤
            (genRow 120 (entropyZero 120 0)).planned_replies ∧
          (genRow 120 (entropyZero 120 0)).planned_replies ≤
            (genRow 120 (entropyZero 120 0)).planned_sent)) :=
  ⟨fun _ _ => (by decide : GenSample.InRange ⟨0, 0, 0, 0, 0, 0, 0, 0⟩),
    claim1_generator_funnel_chains entropyZero
      (fun _ _ => (by decide : GenSample.InRange ⟨0, 0, 0, 0, 0, 0, 0, 0⟩)) _
      (genRow_mem_generate entropyZero)⟩

/-! ## C8: zero-total percentage shares -/

/-- C8.  When a breakdown's total is 0 the rendered percentage share of
every entry is 0: the division is guarded by `total > 0`, so it is never
evaluated with a zero denominator. -/
theorem claim8_zero_total_shares (data : List (String × ℤ)) :
    renderedShares data 0 = data.map fun _ => 0 := by
  simp [renderedShares, pctShare]

/-! ## C3: behaviour on the empty record list -/

/-- C3.  On the empty record list the aggregation operations return an empty
day-series, all-zero grand totals, and, for every categorical field and
selected metric, an empty breakdown with total 0 (all three operations are
total functions, so no error is possible). -/
theorem claim3_empty_input :
    chartData [] = [] ∧ (∀ f : MetricField, (totals []).get f = 0) ∧
      ∀ (fld : CatField) (m : MetricField), getGroupedData [] fld m = ⟨[], 0⟩ := by
  refine ⟨by simp [chartData, groupByDate], ?_, ?_⟩
  · intro f; cases f <;> rfl
  · intro fld m
    simp only [getGroupedData, groupedPass, List.foldl_nil, List.mergeSort_nil]

/-! ## C2: grand totals agree with the day-series sums -/

theorem totals_get_add (t : Totals) (r : RowData) (f : MetricField) :
    (t.add r).get f = t.get f + r.get f := by cases f <;> rfl

theorem Totals.get_zero (f : MetricField) :
    (⟨0, 0, 0, 0, 0, 0, 0, 0, 0, 0⟩ : Totals).get f = 0 := by cases f <;> rfl

theorem totals_get (rows : List RowData) (f : MetricField) :
    (totals rows).get f = metricSum rows f := by
  have key : ∀ (l : List RowData) (t : Totals),
      (l.foldl Totals.add t).get f = t.get f + metricSum l f := by
    intro l
    induction l with
    | nil => intro t; simp [metricSum]
    | cons r l ih =>
      intro t
      simp only [List.foldl_cons, metricSum, List.map_cons, List.sum_cons]
      rw [ih, totals_get_add]
      simp only [metricSum]
      ring
  rw [totals, key, Totals.get_zero, zero_add]

/-- Sum of one metric over a list of aggregated day entries. -/
def daySum (l : List AggregatedDay) (f : MetricField) : ℤ :=
  (l.map fun d => d.get f).sum

theorem aggDay_get_add (d : AggregatedDay) (r : RowData) (f : MetricField) :
    (d.add r).get f = d.get f + r.get f := by cases f <;> rfl

theorem aggDay_get_mkZero (r : RowData) (f : MetricField) :
    (AggregatedDay.mkZero r).get f = 0 := by cases f <;> rfl

theorem daySum_insertRow (r : RowData) (f : MetricField) :
    ∀ m : List AggregatedDay, daySum (insertRow r m) f = daySum m f + r.get f := by
  intro m
  induction m with
  | nil =>
    simp [insertRow, daySum, aggDay_get_add, aggDay_get_mkZero]
  | cons d ds ih =>
    by_cases h : d.date = r.date
    · simp [insertRow, h, daySum, aggDay_get_add]
      ring
    · simp only [insertRow, if_neg h, daySum, List.map_cons, List.sum_cons]
      rw [show (List.map (fun d => d.get f) (insertRow r ds)).sum
          = daySum (insertRow r ds) f from rfl, ih]
      simp [daySum]
      ring

theorem daySum_groupByDate (rows : List RowData) (f : MetricField) :
    daySum (groupByDate rows) f = metricSum rows f := by
  have key : ∀ (l : List RowData) (m : List AggregatedDay),
      daySum (l.foldl (fun m r => insertRow r m) m) f = daySum m f + metricSum l f := by
    intro l
    induction l with
    | nil => intro m; simp [metricSum]
    | cons r l ih =>
      intro m
      simp only [List.foldl_cons, metricSum, List.map_cons, List.sum_cons]
      rw [ih, daySum_insertRow]
      simp [metricSum]
      ring
  rw [groupByDate, key]
  simp [daySum]

/-- The `chartData` sort permutes the grouped entries. -/
theorem chartData_perm (rows : List RowData) :
    List.Perm (chartData rows) (groupByDate rows) := List.mergeSort_perm _ _

/-- C2.  For every record list and each of the ten metric fields, the grand
total computed by the single fold over all records equals the sum of that
metric over all entries of the by-day aggregated series built from the same
records. -/
theorem claim2_totals_eq_day_series_sums (rows : List RowData) (f : MetricField) :
    (totals rows).get f = ((chartData rows).map fun d => d.get f).sum := by
  rw [totals_get, show ((chartData rows).map fun d => d.get f).sum
    = daySum (chartData rows) f from rfl]
  rw [show daySum (chartData rows) f = daySum (groupByDate rows) f from
    List.Perm.sum_eq (List.Perm.map _ (chartData_perm rows))]
  exact (daySum_groupByDate rows f).symm

/-! ## C7: breakdown entries sum to the reported total -/

theorem bump_snd_sum (k : String) (v : ℤ) :
    ∀ gs : List (String × ℤ),
      ((bump k v gs).map Prod.snd).sum = (gs.map Prod.snd).sum + v
  | [] => by simp [bump]
  | p :: ps => by
    by_cases h : p.1 = k
    · simp only [bump, if_pos h, List.map_cons, List.sum_cons]
      ring
    · simp only [bump, if_neg h, List.map_cons, List.sum_cons,
        bump_snd_sum k v ps]
      ring

theorem groupedFold_snd (fld : CatField) (m : MetricField) :
    ∀ (l : List RowData) (gs : List (String × ℤ)) (t : ℤ),
      (l.foldl (groupedStep fld m) (gs, t)).2 = t + metricSum l m
  | [], gs, t => by simp [metricSum]
  | r :: l, gs, t => by
    simp only [List.foldl_cons, groupedStep]
    rw [groupedFold_snd fld m l]
    simp only [metricSum, List.map_cons, List.sum_cons]
    ring

theorem groupedFold_fst_sum (fld : CatField) (m : MetricField) :
    ∀ (l : List RowData) (gs : List (String × ℤ)) (t : ℤ),
      ((l.foldl (groupedStep fld m) (gs, t)).1.map Prod.snd).sum
        = (gs.map Prod.snd).sum + metricSum l m
  | [], gs, t => by simp [metricSum]
  | r :: l, gs, t => by
    simp only [List.foldl_cons, groupedStep]
    rw [groupedFold_fst_sum fld m l, bump_snd_sum]
    simp only [metricSum, List.map_cons, List.sum_cons]
    ring

/-- C7.  For every record list, categorical field and selected metric, the
breakdown's entry values sum to its reported total, which equals the sum of
the selected metric over all records. -/
theorem claim7_breakdown_sum_total (rows : List RowData) (fld : CatField)
    (m : MetricField) :
    ((getGroupedData rows fld m).data.map Prod.snd).sum
        = (getGroupedData rows fld m).total ∧
      (getGroupedData rows fld m).total = metricSum rows m := by
  have htot : (groupedPass rows fld m).2 = metricSum rows m := by
    rw [groupedPass, groupedFold_snd, zero_add]
  have hsum : ((groupedPass rows fld m).1.map Prod.snd).sum = metricSum rows m := by
    rw [groupedPass, groupedFold_fst_sum]
    simp
  have hperm : List.Perm ((getGroupedData rows fld m).data.map Prod.snd)
      ((groupedPass rows fld m).1.map Prod.snd) :=
    List.Perm.map _ (List.mergeSort_perm _ _)
  exact ⟨by rw [List.Perm.sum_eq hperm, hsum]; exact htot.symm, htot⟩

/-! ## C6: breakdown sorted descending with stable ties -/

theorem valueLe_trans (a b c : String × ℤ) (h1 : valueLe a b) (h2 : valueLe b c) :
    valueLe a c := by
  simp only [valueLe, decide_eq_true_eq] at h1 h2 ⊢
  exact le_trans h2 h1

theorem valueLe_total (a b : String × ℤ) : valueLe a b || valueLe b a := by
  simp only [valueLe]
  rcases le_total b.2 a.2 with h | h <;> simp [h]

theorem bump_keys (k : String) (v : ℤ) :
    ∀ gs : List (String × ℤ),
      (bump k v gs).map Prod.fst =
        if k ∈ gs.map Prod.fst then gs.map Prod.fst else gs.map Prod.fst ++ [k]
  | [] => by simp [bump]
  | p :: ps => by
    by_cases h : p.1 = k
    · simp [bump, h]
    · have hne : ¬k = p.1 := fun hk => h hk.symm
      simp only [bump, if_neg h, List.map_cons, bump_keys k v ps,
        List.mem_cons, hne, false_or]
      by_cases hm : k ∈ ps.map Prod.fst <;> simp [hm]

theorem groupedFold_keys (fld : CatField) (m : MetricField) :
    ∀ (l : List RowData) (gs : List (String × ℤ)) (t : ℤ),
      (l.foldl (groupedStep fld m) (gs, t)).1.map Prod.fst
        = (l.map fun r => r.getCat fld).foldl
            (fun acc a => if a ∈ acc then acc else acc ++ [a]) (gs.map Prod.fst)
  | [], gs, t => by simp
  | r :: l, gs, t => by
    simp only [List.foldl_cons, groupedStep, List.map_cons]
    rw [groupedFold_keys fld m l, bump_keys]

/-- The pre-sort breakdown keys appear in first-seen category order. -/
theorem groupedPass_keys (rows : List RowData) (fld : CatField) (m : MetricField) :
    (groupedPass rows fld m).1.map Prod.fst
      = firstSeen (rows.map fun r => r.getCat fld) := by
  rw [groupedPass, groupedFold_keys, firstSeen]
  rfl

/-- C6.  The breakdown is sorted by summed value descending; entries of any
given value keep exactly their pre-sort relative order (stable ties), and the
pre-sort entry order is the first-seen order of the categories in the record
list. -/
theorem claim6_breakdown_sorted_stable (rows : List RowData) (fld : CatField)
    (m : MetricField) :
    ((getGroupedData rows fld m).data.Pairwise fun a b => b.2 ≤ a.2) ∧
      (∀ v : ℤ,
        (getGroupedData rows fld m).data.filter (fun e => e.2 == v)
          = (groupedPass rows fld m).1.filter (fun e => e.2 == v)) ∧
      (groupedPass rows fld m).1.map Prod.fst
        = firstSeen (rows.map fun r => r.getCat fld) := by
  refine ⟨?_, ?_, groupedPass_keys rows fld m⟩
  · have h := List.sorted_mergeSort valueLe_trans valueLe_total
      (groupedPass rows fld m).1
    exact h.imp fun hab => by
      simpa [valueLe, decide_eq_true_eq] using hab
  · intro v
    set l := (groupedPass rows fld m).1 with hl
    have hsub : List.Sublist (l.filter fun e => e.2 == v) (l.mergeSort valueLe) := by
      apply List.sublist_mergeSort valueLe_trans valueLe_total
      · apply List.pairwise_of_forall_mem_list
        intro a ha b hb
        have ha2 : a.2 = v := by simpa using (List.mem_filter.mp ha).2
        have hb2 : b.2 = v := by simpa using (List.mem_filter.mp hb).2
        simp [valueLe, ha2, hb2]
      · exact List.filter_sublist l
    have hperm : List.Perm ((l.mergeSort valueLe).filter (fun e => e.2 == v))
        (l.filter (fun e => e.2 == v)) :=
      List.Perm.filter _ (List.mergeSort_perm l valueLe)
    have hsub2 : List.Sublist (l.filter fun e => e.2 == v)
        ((l.mergeSort valueLe).filter fun e => e.2 == v) := by
      have : List.Sublist ((l.filter fun e => e.2 == v).filter fun e => e.2 == v)
          ((l.mergeSort valueLe).filter fun e => e.2 == v) :=
        List.Sublist.filter _ hsub
      rwa [List.filter_filter,
        show (fun e : String × ℤ => e.2 == v && (e.2 == v)) = fun e => e.2 == v
          from funext fun e => by cases h : (e.2 == v) <;> simp [h]] at this
    exact (List.Sublist.eq_of_length hsub2 hperm.length_eq.symm).symm

/-! ## C10: speed-to-lead buckets -/

theorem bump_of_mem_nodup (k : String) (v : ℤ) :
    ∀ gs : List (String × ℤ), (gs.map Prod.fst).Nodup → k ∈ gs.map Prod.fst →
      bump k v gs = gs.map fun p => if p.1 = k then (p.1, p.2 + v) else p
  | [], _, hmem => by simp at hmem
  | p :: ps, hnd, hmem => by
    simp only [List.map_cons] at hnd
    have hnd2 := List.nodup_cons.mp hnd
    by_cases h : p.1 = k
    · have hk : k ∉ ps.map Prod.fst := fun hm => hnd2.1 (by rw [h]; exact hm)
      simp only [bump, if_pos h, List.map_cons, if_pos h]
      refine congrArg _ ?_
      rw [show ps.map (fun q => if q.1 = k then (q.1, q.2 + v) else q) = ps.map id from
        List.map_congr_left fun q hq => if_neg fun hqk =>
          hk (by rw [← hqk]; exact List.mem_map_of_mem Prod.fst hq),
        List.map_id]
    · have hmem2 : k ∈ ps.map Prod.fst := by
        rcases List.mem_cons.mp hmem with h1 | h1
        · exact absurd h1.symm h
        · exact h1
      simp only [bump, if_neg h, List.map_cons, if_neg h]
      exact congrArg _ (bump_of_mem_nodup k v ps hnd2.2 hmem2)

/-- Sum of the metric over the records of one bucket that pass the
strict-positivity filter. -/
def posSum (rows : List RowData) (m : MetricField) (b : String) : ℤ :=
  metricSum (rows.filter fun r => r.ttl_bucket == b && decide (0 < r.get m)) m

theorem ttlFold_spec (m : MetricField) :
    ∀ (l : List RowData) (gs : List (String × ℤ)),
      (gs.map Prod.fst).Nodup →
      (∀ r ∈ l, 0 < r.get m → r.ttl_bucket ∈ gs.map Prod.fst) →
      l.foldl (ttlStep m) gs = gs.map fun p => (p.1, p.2 + posSum l m p.1)
  | [], gs, _, _ => by
    simp [posSum, metricSum]
  | r :: l, gs, hnd, hc => by
    simp only [List.foldl_cons, ttlStep]
    by_cases hv : 0 < r.get m
    · rw [if_pos hv]
      have hmem : r.ttl_bucket ∈ gs.map Prod.fst :=
        hc r (List.mem_cons_self _ _) hv
      rw [bump_of_mem_nodup _ _ gs hnd hmem]
      have hfst : (gs.map fun p => if p.1 = r.ttl_bucket then (p.1, p.2 + r.get m) else p).map Prod.fst
          = gs.map Prod.fst := by
        rw [List.map_map]
        exact List.map_congr_left fun p _ => by
          by_cases hp : p.1 = r.ttl_bucket <;> simp [hp]
      have hnd2 : ((gs.map fun p => if p.1 = r.ttl_bucket then (p.1, p.2 + r.get m) else p).map Prod.fst).Nodup := by
        rw [hfst]; exact hnd
      have hc2 : ∀ r2 ∈ l, 0 < r2.get m →
          r2.ttl_bucket ∈ (gs.map fun p => if p.1 = r.ttl_bucket then (p.1, p.2 + r.get m) else p).map Prod.fst := by
        intro r2 h2 hp
        rw [hfst]
        exact hc r2 (List.mem_cons_of_mem _ h2) hp
      rw [ttlFold_spec m l _ hnd2 hc2, List.map_map]
      refine List.map_congr_left fun p _ => ?_
      have hde : decide (0 < r.get m) = true := by simp [hv]
      by_cases hp : p.1 = r.ttl_bucket
      · have hbe : (r.ttl_bucket == p.1) = true := by simp [hp]
        have hfil : (r :: l).filter (fun r2 => r2.ttl_bucket == p.1 && decide (0 < r2.get m))
            = r :: l.filter (fun r2 => r2.ttl_bucket == p.1 && decide (0 < r2.get m)) := by
          simp [List.filter_cons, hbe, hde]
        simp only [Function.comp, if_pos hp, posSum, metricSum, hfil,
          List.map_cons, List.sum_cons]
        rw [add_assoc]
      · have hbe : (r.ttl_bucket == p.1) = false := by
          simp only [beq_eq_false_iff_ne, ne_eq]
          exact fun hc3 => hp hc3.symm
        have hfil : (r :: l).filter (fun r2 => r2.ttl_bucket == p.1 && decide (0 < r2.get m))
            = l.filter (fun r2 => r2.ttl_bucket == p.1 && decide (0 < r2.get m)) := by
          simp [List.filter_cons, hbe]
        simp only [Function.comp, if_neg hp, posSum, metricSum, hfil]
    · rw [if_neg hv]
      rw [ttlFold_spec m l gs hnd fun r2 h2 => hc r2 (List.mem_cons_of_mem _ h2)]
      refine List.map_congr_left fun p _ => ?_
      have hde : (decide (0 < r.get m)) = false := by simp [hv]
      simp only [posSum, metricSum, List.filter_cons, hde, Bool.and_false,
        ite_false, Bool.false_eq_true]

/-- Under non-negative metric values, the positivity filter never changes a
bucket's sum (rows it skips contribute 0). -/
theorem posSum_eq_bucket_sum (m : MetricField) (b : String) :
    ∀ rows : List RowData, (∀ r ∈ rows, 0 ≤ r.get m) →
      posSum rows m b = metricSum (rows.filter fun r => r.ttl_bucket == b) m
  | [], _ => rfl
  | r :: l, hnn => by
    have hrec := posSum_eq_bucket_sum m b l fun r2 h2 => hnn r2 (List.mem_cons_of_mem _ h2)
    by_cases hb : (r.ttl_bucket == b) = true
    · by_cases hv : 0 < r.get m
      · have hde : (decide (0 < r.get m)) = true := by simp [hv]
        simp only [posSum, metricSum, List.filter_cons, hb, hde, Bool.and_self,
          ite_true, List.map_cons, List.sum_cons] at hrec ⊢
        rw [hrec]
      · have hz : r.get m = 0 :=
          le_antisymm (not_lt.mp hv) (hnn r (List.mem_cons_self _ _))
        have hde : (decide (0 < r.get m)) = false := by simp [hv]
        simp only [posSum, metricSum, List.filter_cons, hb, hde, Bool.and_false,
          ite_false, List.map_cons, List.sum_cons, Bool.false_eq_true, ite_true] at hrec ⊢
        rw [hrec, hz, zero_add]
    · have hb2 : (r.ttl_bucket == b) = false := by
        cases h : (r.ttl_bucket == b) with
        | true => exact absurd h hb
        | false => rfl
      simp only [posSum, metricSum, List.filter_cons, hb2, Bool.false_and,
        ite_false, Bool.false_eq_true] at hrec ⊢
      exact hrec

/-- C10.  For every record list whose buckets lie in the closed
response-time domain and whose metric values are non-negative, `ttlConfig`
produces exactly one entry per bucket, in the fixed domain order, whose
value is the sum of the selected metric over that bucket (0 for buckets with
no matching records); the strict-positivity filter never changes the sums. -/
theorem claim10_ttl_fixed_buckets (rows : List RowData) (m : MetricField)
    (hdom : ∀ r ∈ rows, r.ttl_bucket ∈ SEGMENTS.ttlBuckets)
    (hnn : ∀ r ∈ rows, 0 ≤ r.get m) :
    ttlData rows m
      = SEGMENTS.ttlBuckets.map fun b =>
          (b, metricSum (rows.filter fun r => r.ttl_bucket == b) m) := by
  have hkeys : ttlInit.map Prod.fst = SEGMENTS.ttlBuckets := by
    rw [ttlInit, List.map_map]
    exact List.map_id _
  have hnd : (ttlInit.map Prod.fst).Nodup := by
    rw [hkeys]; decide
  have hc : ∀ r ∈ rows, 0 < r.get m → r.ttl_bucket ∈ ttlInit.map Prod.fst := by
    intro r hr _
    rw [hkeys]
    exact hdom r hr
  rw [ttlData, ttlFold_spec m rows ttlInit hnd hc, ttlInit, List.map_map]
  refine List.map_congr_left fun b hb => ?_
  simp only [Function.comp, zero_add]
  rw [posSum_eq_bucket_sum m b rows hnn]

/-- A concrete literal record used by witnesses. -/
def sampleRow : RowData :=
  { date := 0
    displayDate := 0
    region := "US"
    persona := "HR Director"
    inbox_provider := "SMTP"
    campaign_name := "Campaign A"
    ttl_bucket := "5-30 mins"
    revenue_range := "< $1M"
    emails_sent := 10
    replies := 3
    positive_replies := 2
    meetings_booked := 1
    bounces := 0
    estimated_pipeline_value := 15000
    planned_sent := 9
    planned_replies := 2
    planned_mqls := 1
    planned_sqls := 0
    planned_bounces := 0 }

/-- Witness for C10 at a one-record list and the `emails_sent` metric. -/
theorem claim10_witness :
    (∀ r ∈ [sampleRow], r.ttl_bucket ∈ SEGMENTS.ttlBuckets) ∧
      (∀ r ∈ [sampleRow], 0 ≤ r.get MetricField.emails_sent) ∧
      ttlData [sampleRow] MetricField.emails_sent
        = SEGMENTS.ttlBuckets.map fun b =>
            (b, metricSum ([sampleRow].filter fun r => r.ttl_bucket == b)
              MetricField.emails_sent) :=
  ⟨by decide, by decide,
    claim10_ttl_fixed_buckets [sampleRow] MetricField.emails_sent
      (by decide) (by decide)⟩

/-! ## C9: segment rows per day -/

theorem genRow_date (i : ℕ) (s : GenSample) : (genRow i s).date = anchorDay - i := rfl

theorem dayRows_length (i : ℕ) (e : ℕ → GenSample) :
    (dayRows i e).length = numSegments i := by
  simp [dayRows]

theorem dayRows_filter_date (e : ℕ → GenSample) (i i2 : ℕ) :
    (dayRows i2 e).filter (fun r => r.date == anchorDay - (i : ℤ))
      = if i2 = i then dayRows i2 e else [] := by
  by_cases h : i2 = i
  · subst h
    rw [if_pos rfl]
    refine List.filter_eq_self.mpr fun r hr => ?_
    obtain ⟨j, -, rfl⟩ := List.mem_map.mp hr
    simp [genRow_date]
  · rw [if_neg h]
    refine List.filter_eq_nil_iff.mpr fun r hr => ?_
    obtain ⟨j, -, rfl⟩ := List.mem_map.mp hr
    simp only [genRow_date, beq_iff_eq]
    omega

theorem flatMap_filter_date (ent : ℕ → ℕ → GenSample) (i : ℕ) :
    ∀ L : List ℕ, L.Nodup → i ∈ L →
      ((L.flatMap fun i2 => dayRows i2 (ent i2)).filter
          (fun r => r.date == anchorDay - (i : ℤ))).length = numSegments i := by
  intro L
  induction L with
  | nil => intro _ h; simp at h
  | cons j L ih =>
    intro hnd hmem
    have hnd2 := List.nodup_cons.mp hnd
    rw [List.flatMap_cons, List.filter_append, List.length_append]
    by_cases h : j = i
    · subst h
      rw [dayRows_filter_date (ent j) j j, if_pos rfl]
      have hzero : ((L.flatMap fun i2 => dayRows i2 (ent i2)).filter
          (fun r => r.date == anchorDay - (j : ℤ))).length = 0 := by
        rw [List.length_eq_zero]
        refine List.filter_eq_nil_iff.mpr fun r hr => ?_
        obtain ⟨i2, hi2, hr2⟩ := List.mem_flatMap.mp hr
        obtain ⟨j2, -, rfl⟩ := List.mem_map.mp hr2
        have hne : i2 ≠ j := fun hh => hnd2.1 (hh ▸ hi2)
        simp only [genRow_date, beq_iff_eq]
        omega
      rw [hzero, dayRows_length, Nat.add_zero]
    · rw [dayRows_filter_date (ent j) i j, if_neg h]
      simp only [List.length_nil, zero_add]
      refine ih hnd2.2 ?_
      rcases List.mem_cons.mp hmem with h1 | h1
      · exact absurd h1.symm h
      · exact h1

/-- C9.  For every day offset `i` in the 121-day window, the generator emits
exactly 2 segment rows carrying that day's date when the day is a Saturday
or Sunday, and exactly 12 otherwise. -/
theorem claim9_weekend_segment_rows (ent : ℕ → ℕ → GenSample) (i : ℕ)
    (hi : i ≤ 120) :
    ((generateRawCSVData ent).filter fun r => r.date == anchorDay - (i : ℤ)).length
      = if isWeekend (anchorDay - (i : ℤ)) then 2 else 12 := by
  have hnd : ((List.range 121).map fun k => 120 - k).Nodup := by decide
  have hmem : i ∈ (List.range 121).map fun k => 120 - k :=
    List.mem_map.mpr ⟨120 - i, List.mem_range.mpr (by omega), by omega⟩
  rw [generateRawCSVData, flatMap_filter_date ent i _ hnd hmem, numSegments]

/-- Witness for C9 at the anchor day itself (offset 0). -/
theorem claim9_witness :
    (0 : ℕ) ≤ 120 ∧
      ((generateRawCSVData entropyZero).filter
          fun r => r.date == anchorDay - ((0 : ℕ) : ℤ)).length
        = if isWeekend (anchorDay - ((0 : ℕ) : ℤ)) then 2 else 12 :=
  ⟨by decide, claim9_weekend_segment_rows entropyZero 0 (by decide)⟩

/-! ## C5: day-series sorted strictly ascending, order-insensitive -/

theorem firstSeen_append {α : Type} [DecidableEq α] (l : List α) (a : α) :
    firstSeen (l ++ [a])
      = if a ∈ firstSeen l then firstSeen l else firstSeen l ++ [a] := by
  simp [firstSeen, List.foldl_append]

theorem mem_firstSeen {α : Type} [DecidableEq α] (a : α) (l : List α) :
    a ∈ firstSeen l ↔ a ∈ l := by
  induction l using List.reverseRecOn with
  | nil => simp [firstSeen]
  | append_singleton l b ih =>
    rw [firstSeen_append]
    by_cases h : b ∈ firstSeen l
    · rw [if_pos h]
      constructor
      · intro ha
        exact List.mem_append_left _ (ih.mp ha)
      · intro ha
        rcases List.mem_append.mp ha with h1 | h1
        · exact ih.mpr h1
        · rw [List.mem_singleton.mp h1]
          exact h
    · rw [if_neg h]
      simp only [List.mem_append, List.mem_singleton]
      exact or_congr ih Iff.rfl

theorem firstSeen_nodup {α : Type} [DecidableEq α] (l : List α) :
    (firstSeen l).Nodup := by
  induction l using List.reverseRecOn with
  | nil => simp [firstSeen]
  | append_singleton l b ih =>
    rw [firstSeen_append]
    by_cases h : b ∈ firstSeen l
    · rwa [if_pos h]
    · rw [if_neg h]
      refine List.Nodup.append ih (List.nodup_singleton b) ?_
      intro a ha hb
      rw [List.mem_singleton.mp hb] at ha
      exact h ha

/-- Reference characterization of one aggregated day entry: the sums of the
ten metrics over the rows of its date, with the display label of the first
such row. -/
def aggEntry (rows : List RowData) (d : ℤ) : AggregatedDay :=
  { date := d
    displayDate := (((rows.find? fun r => r.date == d).map fun r => r.displayDate).getD 0)
    emails_sent := metricSum (rows.filter fun r => r.date == d) .emails_sent
    planned_sent := metricSum (rows.filter fun r => r.date == d) .planned_sent
    replies := metricSum (rows.filter fun r => r.date == d) .replies
    planned_replies := metricSum (rows.filter fun r => r.date == d) .planned_replies
    positive_replies := metricSum (rows.filter fun r => r.date == d) .positive_replies
    planned_mqls := metricSum (rows.filter fun r => r.date == d) .planned_mqls
    meetings_booked := metricSum (rows.filter fun r => r.date == d) .meetings_booked
    planned_sqls := metricSum (rows.filter fun r => r.date == d) .planned_sqls
    bounces := metricSum (rows.filter fun r => r.date == d) .bounces
    planned_bounces := metricSum (rows.filter fun r => r.date == d) .planned_bounces }

theorem aggEntry_date (rows : List RowData) (d : ℤ) : (aggEntry rows d).date = d := rfl

theorem aggEntry_get (rows : List RowData) (d : ℤ) (f : MetricField) :
    (aggEntry rows d).get f = metricSum (rows.filter fun r => r.date == d) f := by
  cases f <;> rfl

theorem aggDay_add_date (e : AggregatedDay) (r : RowData) : (e.add r).date = e.date := rfl

theorem aggDay_add_displayDate (e : AggregatedDay) (r : RowData) :
    (e.add r).displayDate = e.displayDate := rfl

theorem aggDay_eq_of_fields {a b : AggregatedDay} (hd : a.date = b.date)
    (hdd : a.displayDate = b.displayDate) (hf : ∀ f, a.get f = b.get f) : a = b := by
  have h1 := hf .emails_sent
  have h2 := hf .planned_sent
  have h3 := hf .replies
  have h4 := hf .planned_replies
  have h5 := hf .positive_replies
  have h6 := hf .planned_mqls
  have h7 := hf .meetings_booked
  have h8 := hf .planned_sqls
  have h9 := hf .bounces
  have h10 := hf .planned_bounces
  cases a
  cases b
  simp only [AggregatedDay.get] at h1 h2 h3 h4 h5 h6 h7 h8 h9 h10
  simp_all

theorem metricSum_append (l1 l2 : List RowData) (f : MetricField) :
    metricSum (l1 ++ l2) f = metricSum l1 f + metricSum l2 f := by
  simp [metricSum]

theorem insertRow_of_not_mem (r : RowData) :
    ∀ m : List AggregatedDay, (∀ e ∈ m, e.date ≠ r.date) →
      insertRow r m = m ++ [AggregatedDay.add (AggregatedDay.mkZero r) r]
  | [], _ => rfl
  | d :: ds, h => by
    simp only [insertRow, if_neg (h d (List.mem_cons_self _ _))]
    rw [insertRow_of_not_mem r ds fun e he => h e (List.mem_cons_of_mem _ he),
      List.cons_append]

theorem insertRow_map_agg (r : RowData) (rows : List RowData) :
    ∀ L : List ℤ, L.Nodup → r.date ∈ L →
      insertRow r (L.map (aggEntry rows))
        = L.map fun d => if d = r.date then (aggEntry rows d).add r else aggEntry rows d
  | [], _, hm => by simp at hm
  | d :: L, hnd, hm => by
    have hnd2 := List.nodup_cons.mp hnd
    by_cases h : d = r.date
    · simp only [List.map_cons, insertRow, aggEntry_date, if_pos h]
      refine congrArg _ ?_
      rw [show (L.map fun d2 => if d2 = r.date then (aggEntry rows d2).add r else aggEntry rows d2)
          = L.map (aggEntry rows) from
        List.map_congr_left fun d2 hd2 => if_neg fun hc => hnd2.1 (by rw [h, ← hc]; exact hd2)]
    · have hm2 : r.date ∈ L := by
        rcases List.mem_cons.mp hm with h1 | h1
        · exact absurd h1.symm h
        · exact h1
      simp only [List.map_cons, insertRow, aggEntry_date, if_neg h]
      exact congrArg _ (insertRow_map_agg r rows L hnd2.2 hm2)

theorem aggEntry_append_of_mem (rows : List RowData) (r : RowData) (d : ℤ)
    (hd : d ∈ rows.map fun r2 => r2.date) :
    aggEntry (rows ++ [r]) d
      = if d = r.date then (aggEntry rows d).add r else aggEntry rows d := by
  have hfind : (rows.find? fun r2 => r2.date == d).isSome := by
    rw [List.find?_isSome]
    obtain ⟨r0, hr0, hr0d⟩ := List.mem_map.mp hd
    exact ⟨r0, hr0, by simp [hr0d]⟩
  have hdd : ((rows ++ [r]).find? fun r2 => r2.date == d)
      = rows.find? fun r2 => r2.date == d := by
    rw [List.find?_append]
    cases hfo : rows.find? fun r2 => r2.date == d with
    | some x => rfl
    | none => rw [hfo] at hfind; simp at hfind
  have hfil : (rows ++ [r]).filter (fun r2 => r2.date == d)
      = rows.filter (fun r2 => r2.date == d)
        ++ if d = r.date then [r] else [] := by
    rw [List.filter_append]
    by_cases h : d = r.date
    · simp [h]
    · have : (r.date == d) = false := by
        simp only [beq_eq_false_iff_ne, ne_eq]
        exact fun hc => h hc.symm
      simp [this, h]
  by_cases h : d = r.date
  · rw [if_pos h]
    refine aggDay_eq_of_fields ?_ ?_ ?_
    · rw [aggEntry_date, aggDay_add_date, aggEntry_date]
    · rw [aggDay_add_displayDate]
      show (((rows ++ [r]).find? fun r2 => r2.date == d).map fun r2 => r2.displayDate).getD 0
        = ((rows.find? fun r2 => r2.date == d).map fun r2 => r2.displayDate).getD 0
      rw [hdd]
    · intro f
      rw [aggEntry_get, aggDay_get_add, aggEntry_get, hfil, if_pos h,
        metricSum_append]
      simp [metricSum]
  · rw [if_neg h]
    refine aggDay_eq_of_fields rfl ?_ ?_
    · show (((rows ++ [r]).find? fun r2 => r2.date == d).map fun r2 => r2.displayDate).getD 0
        = ((rows.find? fun r2 => r2.date == d).map fun r2 => r2.displayDate).getD 0
      rw [hdd]
    · intro f
      rw [aggEntry_get, aggEntry_get, hfil, if_neg h, List.append_nil]

theorem aggEntry_append_new (rows : List RowData) (r : RowData)
    (hnew : (r.date ∈ rows.map fun r2 => r2.date) → False) :
    aggEntry (rows ++ [r]) r.date = AggregatedDay.add (AggregatedDay.mkZero r) r := by
  have hfo : (rows.find? fun r2 => r2.date == r.date) = none := by
    rw [List.find?_eq_none]
    intro x hx
    simp only [beq_iff_eq]
    exact fun hxd => hnew (List.mem_map.mpr ⟨x, hx, hxd⟩)
  have hfil : rows.filter (fun r2 => r2.date == r.date) = [] := by
    rw [List.filter_eq_nil_iff]
    intro x hx
    simp only [beq_iff_eq]
    exact fun hxd => hnew (List.mem_map.mpr ⟨x, hx, hxd⟩)
  refine aggDay_eq_of_fields rfl ?_ ?_
  · show (((rows ++ [r]).find? fun r2 => r2.date == r.date).map fun r2 => r2.displayDate).getD 0
      = (AggregatedDay.add (AggregatedDay.mkZero r) r).displayDate
    rw [List.find?_append, hfo]
    simp [AggregatedDay.add, AggregatedDay.mkZero]
  · intro f
    rw [aggEntry_get, List.filter_append, hfil, aggDay_get_add, aggDay_get_mkZero,
      zero_add]
    simp [metricSum]

/-- The grouping pass of `chartData`, in closed form: one entry per distinct
date in first-seen order, each entry aggregating the rows of its date. -/
theorem groupByDate_canonical (rows : List RowData) :
    groupByDate rows
      = (firstSeen (rows.map fun r => r.date)).map (aggEntry rows) := by
  induction rows using List.reverseRecOn with
  | nil => rfl
  | append_singleton rows r ih =>
    have happend : groupByDate (rows ++ [r]) = insertRow r (groupByDate rows) := by
      simp [groupByDate, List.foldl_append]
    rw [happend, ih]
    have hmapD : ((rows ++ [r]).map fun r2 => r2.date)
        = (rows.map fun r2 => r2.date) ++ [r.date] := by simp
    rw [hmapD, firstSeen_append]
    by_cases h : r.date ∈ firstSeen (rows.map fun r2 => r2.date)
    · rw [if_pos h, insertRow_map_agg r rows _ (firstSeen_nodup _) h]
      refine List.map_congr_left fun d hd => ?_
      rw [aggEntry_append_of_mem rows r d ((mem_firstSeen _ _).mp hd)]
    · rw [if_neg h]
      have hnew : (r.date ∈ rows.map fun r2 => r2.date) → False :=
        fun hm => h ((mem_firstSeen _ _).mpr hm)
      rw [insertRow_of_not_mem r _ (fun e he => by
        obtain ⟨d, hd, rfl⟩ := List.mem_map.mp he
        rw [aggEntry_date]
        exact fun hdr => hnew (by rw [← hdr]; exact (mem_firstSeen _ _).mp hd)),
        List.map_append]
      refine congrArg₂ _ ?_ ?_
      · refine List.map_congr_left fun d hd => ?_
        have hdD := (mem_firstSeen _ _).mp hd
        rw [aggEntry_append_of_mem rows r d hdD,
          if_neg fun hdr => hnew (by rw [← hdr]; exact hdD)]
      · rw [List.map_singleton, aggEntry_append_new rows r hnew]

theorem groupByDate_dates (rows : List RowData) :
    (groupByDate rows).map (fun e => e.date)
      = firstSeen (rows.map fun r => r.date) := by
  have h : ((firstSeen (rows.map fun r => r.date)).map ((fun e : AggregatedDay => e.date) ∘ aggEntry rows))
      = (firstSeen (rows.map fun r => r.date)).map id :=
    List.map_congr_left fun d _ => rfl
  rw [groupByDate_canonical, List.map_map, h, List.map_id]

theorem dateLe_trans (a b c : AggregatedDay) (h1 : dateLe a b) (h2 : dateLe b c) :
    dateLe a c := by
  simp only [dateLe, decide_eq_true_eq] at h1 h2 ⊢
  exact le_trans h1 h2

theorem dateLe_total (a b : AggregatedDay) : dateLe a b || dateLe b a := by
  simp only [dateLe]
  rcases le_total a.date b.date with h | h <;> simp [h]

/-- The day-series is sorted strictly ascending by date (hence no two
entries share a date), for any input record list. -/
theorem chartData_pairwise_lt (rows : List RowData) :
    (chartData rows).Pairwise fun a b => a.date < b.date := by
  have hsorted : (chartData rows).Pairwise fun a b => a.date ≤ b.date :=
    (List.sorted_mergeSort dateLe_trans dateLe_total (groupByDate rows)).imp
      fun hab => by simpa [dateLe] using hab
  have hnodup : ((chartData rows).map fun e => e.date).Nodup := by
    have hperm : List.Perm ((chartData rows).map fun e => e.date)
        ((groupByDate rows).map fun e => e.date) :=
      List.Perm.map _ (chartData_perm rows)
    rw [List.Perm.nodup_iff hperm, groupByDate_dates]
    exact firstSeen_nodup _
  have hne : (chartData rows).Pairwise fun a b => a.date ≠ b.date :=
    List.pairwise_map.mp hnodup
  exact (hsorted.and hne).imp fun hab => lt_of_le_of_ne hab.1 hab.2

/-- Well-formedness: records with equal dates carry the same display label
(true of all generated data, where the label is derived from the date). -/
def WellFormed (rows : List RowData) : Prop :=
  ∀ r1 ∈ rows, ∀ r2 ∈ rows, r1.date = r2.date → r1.displayDate = r2.displayDate

instance (rows : List RowData) : Decidable (WellFormed rows) := by
  unfold WellFormed
  infer_instance

/-- C5.  For every well-formed record list, the by-day series is sorted
strictly ascending by date with no duplicate dates, and permuting the input
record list leaves the series unchanged. -/
theorem claim5_chartData_sorted_order_insensitive (rows rows2 : List RowData)
    (hwf : WellFormed rows) (hp : List.Perm rows rows2) :
    ((chartData rows).Pairwise fun a b => a.date < b.date) ∧
      chartData rows2 = chartData rows := by
  refine ⟨chartData_pairwise_lt rows, ?_⟩
  have hmemD : ∀ d : ℤ, (d ∈ rows2.map fun r => r.date) ↔ d ∈ rows.map fun r => r.date :=
    fun d => (List.Perm.mem_iff (List.Perm.map _ hp)).symm
  have hagg : ∀ d, (d ∈ rows.map fun r => r.date) →
      aggEntry rows2 d = aggEntry rows d := by
    intro d hd
    have hd2 : d ∈ rows2.map fun r => r.date := (hmemD d).mpr hd
    have hs1 : (rows.find? fun r => r.date == d).isSome := by
      rw [List.find?_isSome]
      obtain ⟨r0, hr0, hr0d⟩ := List.mem_map.mp hd
      exact ⟨r0, hr0, by simp [hr0d]⟩
    have hs2 : (rows2.find? fun r => r.date == d).isSome := by
      rw [List.find?_isSome]
      obtain ⟨r0, hr0, hr0d⟩ := List.mem_map.mp hd2
      exact ⟨r0, hr0, by simp [hr0d]⟩
    obtain ⟨r1, hfo1⟩ := Option.isSome_iff_exists.mp hs1
    obtain ⟨r2, hfo2⟩ := Option.isSome_iff_exists.mp hs2
    refine aggDay_eq_of_fields rfl ?_ ?_
    · show (((rows2.find? fun r => r.date == d).map fun r => r.displayDate).getD 0)
        = (((rows.find? fun r => r.date == d).map fun r => r.displayDate).getD 0)
      rw [hfo1, hfo2]
      have hm1 : r1 ∈ rows := List.mem_of_find?_eq_some hfo1
      have hm2 : r2 ∈ rows := (List.Perm.mem_iff hp).mpr (List.mem_of_find?_eq_some hfo2)
      have he1 : r1.date = d := by simpa using List.find?_some hfo1
      have he2 : r2.date = d := by simpa using List.find?_some hfo2
      simpa using (hwf r2 hm2 r1 hm1 (he2.trans he1.symm)).symm.symm
    · intro f
      rw [aggEntry_get, aggEntry_get]
      have hpf : List.Perm (rows.filter fun r => r.date == d)
          (rows2.filter fun r => r.date == d) := List.Perm.filter _ hp
      exact (List.Perm.sum_eq (List.Perm.map _ hpf)).symm
  have hgperm : List.Perm (chartData rows2) (chartData rows) := by
    have h1 : List.Perm (chartData rows2) (groupByDate rows2) := chartData_perm rows2
    have h2 : groupByDate rows2
        = (firstSeen (rows2.map fun r => r.date)).map (aggEntry rows) := by
      rw [groupByDate_canonical]
      exact List.map_congr_left fun d hd =>
        hagg d ((hmemD d).mp ((mem_firstSeen _ _).mp hd))
    have h3 : List.Perm (firstSeen (rows2.map fun r => r.date))
        (firstSeen (rows.map fun r => r.date)) := by
      rw [List.perm_ext_iff_of_nodup (firstSeen_nodup _) (firstSeen_nodup _)]
      intro d
      rw [mem_firstSeen, mem_firstSeen]
      exact hmemD d
    have h4 : List.Perm (groupByDate rows2) ((firstSeen (rows.map fun r => r.date)).map (aggEntry rows)) := by
      rw [h2]
      exact List.Perm.map _ h3
    have h5 : (firstSeen (rows.map fun r => r.date)).map (aggEntry rows)
        = groupByDate rows := (groupByDate_canonical rows).symm
    exact h1.trans (h4.trans (h5 ▸ (chartData_perm rows).symm))
  haveI : IsAntisymm AggregatedDay fun a b => a.date < b.date :=
    ⟨fun a b h1 h2 => absurd (lt_trans h1 h2) (lt_irrefl _)⟩
  exact List.eq_of_perm_of_sorted hgperm (chartData_pairwise_lt rows2)
    (chartData_pairwise_lt rows)

/-- A second literal record (a different date) used by witnesses. -/
def sampleRow2 : RowData :=
  { sampleRow with date := 1, displayDate := 1, ttl_bucket := "< 5 mins", emails_sent := 20 }

/-- Witness for C5 at a two-record list and its transposition. -/
theorem claim5_witness :
    WellFormed [sampleRow, sampleRow2] ∧
      List.Perm [sampleRow, sampleRow2] [sampleRow2, sampleRow] ∧
      ((chartData [sampleRow, sampleRow2]).Pairwise fun a b => a.date < b.date) ∧
      chartData [sampleRow2, sampleRow] = chartData [sampleRow, sampleRow2] := by
  have hperm : List.Perm [sampleRow, sampleRow2] [sampleRow2, sampleRow] :=
    List.Perm.swap _ _ _
  have h := claim5_chartData_sorted_order_insensitive [sampleRow, sampleRow2]
    [sampleRow2, sampleRow] (by decide) hperm
  exact ⟨by decide, hperm, h.1, h.2⟩

/-! ## C4: chart pairing and value ceiling -/

theorem chartData_singleton (r : RowData) :
    chartData [r] = [AggregatedDay.add (AggregatedDay.mkZero r) r] := by
  simp [chartData, groupByDate, insertRow, List.mergeSort_singleton]

/-- A record on which the two planned-key computations diverge for the
metric `replies`. -/
def c4Row : RowData :=
  { date := 0
    displayDate := 0
    region := "US"
    persona := "HR Director"
    inbox_provider := "SMTP"
    campaign_name := "Campaign A"
    ttl_bucket := "< 5 mins"
    revenue_range := "< $1M"
    emails_sent := 0
    replies := 1
    positive_replies := 0
    meetings_booked := 0
    bounces := 0
    estimated_pipeline_value := 0
    planned_sent := 100
    planned_replies := 5
    planned_mqls := 0
    planned_sqls := 0
    planned_bounces := 0 }

theorem foldl_max_pointwise (g h : AggregatedDay → ℤ) :
    ∀ (ls : List AggregatedDay) (a b : ℤ),
      (ls.map fun d => max (g d) (h d)).foldl max (max a b)
        = max ((ls.map g).foldl max a) ((ls.map h).foldl max b)
  | [], _, _ => rfl
  | d :: ls, a, b => by
    simp only [List.map_cons, List.foldl_cons]
    rw [max_max_max_comm a b (g d) (h d)]
    exact foldl_max_pointwise g h ls _ _

theorem seriesMax_cons (c : AggregatedDay) (cs : List AggregatedDay) (k : String) :
    seriesMax (c :: cs) k = (cs.map fun d => d.getStr k).foldl max (c.getStr k) := rfl

/-- On a nonempty window, `chartMax` is the max of the active series and the
inline-keyed planned series, scaled by 1.1. -/
theorem chartMax_eq_max_series (rows : List RowData) (am : String)
    (hne : chartData rows ≠ []) :
    chartMax rows am
      = ((max (seriesMax (chartData rows) am)
          (seriesMax (chartData rows) (chartMaxPlannedKey am)) : ℤ) : ℚ) * 1.1 := by
  obtain ⟨c, cs, hc⟩ := List.exists_cons_of_ne_nil hne
  simp only [chartMax, hc, List.map_cons]
  rw [seriesMax_cons, seriesMax_cons,
    foldl_max_pointwise (fun d => d.getStr am)
      (fun d => d.getStr (chartMaxPlannedKey am)) cs (c.getStr am)
      (c.getStr (chartMaxPlannedKey am))]

/-- The same shape for the spec-modelled ceiling. -/
theorem chartMaxSpec_eq_max_series (rows : List RowData) (am : String)
    (hne : chartData rows ≠ []) :
    chartMaxSpec rows am
      = ((max (seriesMax (chartData rows) (getChartConfig am).actual)
          (seriesMax (chartData rows) (getChartConfig am).planned) : ℤ) : ℚ) * 1.1 := by
  obtain ⟨c, cs, hc⟩ := List.exists_cons_of_ne_nil hne
  simp only [chartMaxSpec, hc, List.map_cons]
  rw [seriesMax_cons, seriesMax_cons,
    foldl_max_pointwise (fun d => d.getStr (getChartConfig am).actual)
      (fun d => d.getStr (getChartConfig am).planned) cs
      (c.getStr (getChartConfig am).actual)
      (c.getStr (getChartConfig am).planned)]

/-- C4 counterexample: for the metric `replies`, the value ceiling computed
by `chartMax` reads the `planned_sent` series (giving `110` on `c4Row`),
not the paired `planned_replies` series the claim prescribes (which would
give `5.5`). -/
theorem claim4_counterexample :
    chartMax [c4Row] "replies" ≠ chartMaxSpec [c4Row] "replies" := by
  have hc := chartData_singleton c4Row
  have hne : chartData [c4Row] ≠ [] := by
    rw [hc]
    exact List.cons_ne_nil _ _
  rw [chartMax_eq_max_series [c4Row] "replies" hne,
    chartMaxSpec_eq_max_series [c4Row] "replies" hne]
  have hs1 : seriesMax (chartData [c4Row]) "replies" = 1 := by rw [hc]; decide
  have hs2 : seriesMax (chartData [c4Row]) (chartMaxPlannedKey "replies") = 100 := by
    rw [hc]; decide
  have hs3 : seriesMax (chartData [c4Row]) (getChartConfig "replies").actual = 1 := by
    rw [hc]; decide
  have hs4 : seriesMax (chartData [c4Row]) (getChartConfig "replies").planned = 5 := by
    rw [hc]; decide
  rw [hs1, hs2, hs3, hs4,
    show (max (1 : ℤ) 100) = 100 by decide, show (max (1 : ℤ) 5) = 5 by decide]
  norm_num

/-- C4 (amended).  For each selectable metric, `getChartConfig` pairs the
actual series with its planned counterpart by the fixed lookup
(`emails_sent to planned_sent`, `replies to planned_replies`,
`positive_replies to planned_mqls`, `meetings_booked to planned_sqls`,
`bounces to planned_bounces`); `chartMax`, however, selects its planned
series by an inline key that agrees with that lookup only for `emails_sent`,
`positive_replies` and `meetings_booked`, and reads `planned_sent` for
`replies` and for `bounces`; the ceiling equals the max of the actual and
inline-keyed planned series over the aggregated window, scaled by 1.1. -/
theorem claim4_chart_pairing_amended (rows : List RowData) (am : String)
    (ham : am ∈ ["emails_sent", "replies", "positive_replies",
      "meetings_booked", "bounces"])
    (hne : chartData rows ≠ []) :
    (getChartConfig am).actual = am ∧
      (getChartConfig am).planned = pairedPlanned am ∧
      chartMaxPlannedKey am
        = (if am = "replies" ∨ am = "bounces" then "planned_sent"
           else pairedPlanned am) ∧
      chartMax rows am
        = ((max (seriesMax (chartData rows) am)
            (seriesMax (chartData rows) (chartMaxPlannedKey am)) : ℤ) : ℚ) * 1.1 := by
  refine ⟨?_, ?_, ?_, chartMax_eq_max_series rows am hne⟩ <;> fin_cases ham <;> decide

/-- Witness for C4 at a one-record list and the metric `emails_sent`. -/
theorem claim4_witness :
    ("emails_sent" ∈ ["emails_sent", "replies", "positive_replies",
        "meetings_booked", "bounces"]) ∧
      chartData [c4Row] ≠ [] ∧
      ((getChartConfig "emails_sent").actual = "emails_sent" ∧
        (getChartConfig "emails_sent").planned = pairedPlanned "emails_sent" ∧
        chartMaxPlannedKey "emails_sent"
          = (if "emails_sent" = "replies" ∨ "emails_sent" = "bounces"
             then "planned_sent" else pairedPlanned "emails_sent") ∧
        chartMax [c4Row] "emails_sent"
          = ((max (seriesMax (chartData [c4Row]) "emails_sent")
              (seriesMax (chartData [c4Row]) (chartMaxPlannedKey "emails_sent")) : ℤ) : ℚ) * 1.1) := by
  have hne : chartData [c4Row] ≠ [] := by
    rw [chartData_singleton]
    exact List.cons_ne_nil _ _
  exact ⟨by decide, hne,
    claim4_chart_pairing_amended [c4Row] "emails_sent" (by decide) hne⟩

end Joiners
